import Mathlib

/-!
Shallow embedding of `typed-form-core` (src/src/useForm.ts, src/src/types.ts).

The engine state is the triple (values, errors, touched) held by the hook.
JavaScript objects with string keys are modelled as association lists
`List (String × α)`; `objGet` models member access `m[k]` (yielding
`undefined` = `none` when absent), `objSet` models the spread-update
`{ ...m, [k]: v }` (replace in place when the key exists, append otherwise),
`objDelete` models `delete m[k]`, and `objHas` models `k in m`.

A validator result `string | null` is `Option String` (`none` = null).
`jsTruthy` models JavaScript truthiness of such a result (`null` and `""`
are falsy); `jsEqNull` models the loose comparison `message == null`.
-/

/-- Member access `m[k]`: the value at the first entry whose key is `k`. -/
def objGet {α : Type} (m : List (String × α)) (k : String) : Option α :=
  match m with
  | [] => none
  | (k1, v) :: rest => if k1 = k then some v else objGet rest k

/-- Property test `k in m`. -/
def objHas {α : Type} (m : List (String × α)) (k : String) : Bool :=
  (objGet m k).isSome

/-- Spread update `{ ...m, [k]: v }`: overwrite the existing entry in place,
or append a fresh entry when the key is absent. -/
def objSet {α : Type} (m : List (String × α)) (k : String) (v : α) : List (String × α) :=
  match m with
  | [] => [(k, v)]
  | (k1, v1) :: rest => if k1 = k then (k, v) :: rest else (k1, v1) :: objSet rest k v

/-- Property removal `delete m[k]`. -/
def objDelete {α : Type} (m : List (String × α)) (k : String) : List (String × α) :=
  match m with
  | [] => []
  | (k1, v1) :: rest => if k1 = k then objDelete rest k else (k1, v1) :: objDelete rest k

/-- The key list `Object.keys(m)`. -/
def keys {α : Type} (m : List (String × α)) : List String :=
  m.map Prod.fst

/-- Truthiness of a `string | null` value: `null` and `""` are falsy. -/
def jsTruthy (m : Option String) : Bool :=
  match m with
  | none => false
  | some s => s != ""

/-- The loose comparison `message == null` on a `string | null` value. -/
def jsEqNull (m : Option String) : Bool :=
  m.isNone

/-- A per-field validator (types.ts line 4): receives the field's current
value (`undefined` = `none` when the key is absent) and the whole values
mapping, and returns an error message or the no-error signal `null`. -/
def Validator (V : Type) : Type :=
  Option V → List (String × V) → Option String

/-- The `validators` option: a partial mapping from field name to validator. -/
def Vs (V : Type) : Type :=
  String → Option (Validator V)

/-- The optional-chain lookup `validators?.[name]`. -/
def lookupVal {V : Type} (vs : Option (Vs V)) (name : String) : Option (Validator V) :=
  match vs with
  | none => none
  | some f => f name

/-- The hook's state triple: `values`, `errors`, `touched`. -/
structure FormState (V : Type) where
  values : List (String × V)
  errors : List (String × String)
  touched : List (String × Bool)
  deriving Repr, DecidableEq

/-- State after construction: `values = defaultValues`, `errors = {}`,
`touched = {}` (useForm.ts lines 9-11). -/
def initialState {V : Type} (dv : List (String × V)) : FormState V :=
  { values := dv, errors := [], touched := [] }

/-- `validateField(name)` (useForm.ts lines 13-36): returns the boolean
result together with the updated state. -/
def validateField {V : Type} (vs : Option (Vs V)) (s : FormState V) (name : String) :
    Bool × FormState V :=
  match lookupVal vs name with
  | none =>
      let errors1 := if objHas s.errors name then objDelete s.errors name else s.errors
      (true, { s with errors := errors1 })
  | some validate =>
      let message := validate (objGet s.values name) s.values
      let errors1 :=
        if jsTruthy message then objSet s.errors name (message.getD "")
        else objDelete s.errors name
      (jsEqNull message, { s with errors := errors1 })

/-- One iteration of the `forEach` loop of `validateAll` (useForm.ts
lines 47-56), acting on the accumulator `(ok, nextErrors)`. -/
def validateAllStep {V : Type} (f : Vs V) (values : List (String × V))
    (acc : Bool × List (String × String)) (key : String) : Bool × List (String × String) :=
  match f key with
  | none => acc
  | some validate =>
      let message := validate (objGet values key) values
      if jsTruthy message then (false, objSet acc.2 key (message.getD ""))
      else acc

/-- `validateAll()` (useForm.ts lines 38-60): recomputes `errors` from
scratch over `Object.keys(values)` and returns the overall result. -/
def validateAll {V : Type} (vs : Option (Vs V)) (s : FormState V) : Bool × FormState V :=
  match vs with
  | none => (true, { s with errors := [] })
  | some f =>
      let r := (keys s.values).foldl (validateAllStep f s.values) (true, [])
      (r.1, { s with errors := r.2 })

/-- `setValue(name, value)` (useForm.ts lines 62-64). -/
def setValue {V : Type} (s : FormState V) (name : String) (v : V) : FormState V :=
  { s with values := objSet s.values name v }

/-- The blur callback built by `register(name)` (useForm.ts lines 72-75):
mark `touched[name] = true`, then run `validateField(name)`. -/
def registerOnBlur {V : Type} (vs : Option (Vs V)) (s : FormState V) (name : String) :
    FormState V :=
  let s1 := { s with touched := objSet s.touched name true }
  (validateField vs s1 name).2

/-- `reset(nextValues?)` (useForm.ts lines 81-88): `values` becomes
`nextValues ?? defaultValues`; `errors` and `touched` are cleared. -/
def reset {V : Type} (dv : List (String × V)) (_s : FormState V)
    (next : Option (List (String × V))) : FormState V :=
  { values := next.getD dv, errors := [], touched := [] }

/-- One invocation of the callback returned by `handleSubmit(onValid)`
(useForm.ts lines 90-103): runs `validateAll`, and calls `onValid` with the
current `values` snapshot when it succeeded. The second component records
the arguments of the `onValid` calls made. -/
def handleSubmitRun {V : Type} (vs : Option (Vs V)) (s : FormState V) :
    FormState V × List (List (String × V)) :=
  let r := validateAll vs s
  (r.2, if r.1 then [s.values] else [])

/-- The truthy message field `name` contributes under `validateAll`:
`some m` when its validator fires with a non-empty message, else `none`. -/
def fieldMsg {V : Type} (f : Vs V) (values : List (String × V)) (k : String) : Option String :=
  match f k with
  | none => none
  | some validate =>
      let m := validate (objGet values k) values
      if jsTruthy m then m else none

/-- Keys of the record literal returned by `useForm` (useForm.ts
lines 105-115). -/
def useFormReturnKeys : List String :=
  ["values", "errors", "touched", "register", "setValue",
   "validateField", "validateAll", "handleSubmit", "reset"]

/-- Field names declared by the `UseFormReturn` type (types.ts lines 27-42). -/
def useFormReturnTypeKeys : List String :=
  ["values", "errors", "touched", "register", "setValue",
   "validateField", "validateAll", "handleSubmit", "reset"]

/-- Operations a caller can perform on a constructed engine. -/
inductive FormOp (V : Type) where
  | setVal (name : String) (v : V)
  | validateF (name : String)
  | validateA
  | blur (name : String)
  | submit
  | doReset (next : Option (List (String × V)))

/-- Apply one operation to the state. -/
def applyOp {V : Type} (dv : List (String × V)) (vs : Option (Vs V)) (s : FormState V) :
    FormOp V → FormState V
  | .setVal name v => setValue s name v
  | .validateF name => (validateField vs s name).2
  | .validateA => (validateAll vs s).2
  | .blur name => registerOnBlur vs s name
  | .submit => (handleSubmitRun vs s).1
  | .doReset next => reset dv s next

/-- Run a sequence of operations. -/
def runOps {V : Type} (dv : List (String × V)) (vs : Option (Vs V)) (s : FormState V) :
    List (FormOp V) → FormState V
  | [] => s
  | op :: ops => runOps dv vs (applyOp dv vs s op) ops

/-- An operation stays inside the construction-time field set: `setValue`
and blur use known names and `reset` replacements preserve the key set.
`validateField`, `validateAll` and submit are unrestricted. -/
def opAllowed {V : Type} (fields : List String) : FormOp V → Bool
  | .setVal name _ => decide (name ∈ fields)
  | .blur name => decide (name ∈ fields)
  | .doReset (some w) => decide (keys w = fields)
  | _ => true

/-- The key-set invariant: `values` has exactly the construction-time
field names, `errors` and `touched` have keys among them. -/
def goodState {V : Type} (fields : List String) (s : FormState V) : Prop :=
  keys s.values = fields
    ∧ (∀ k ∈ keys s.errors, k ∈ fields)
    ∧ (∀ k ∈ keys s.touched, k ∈ fields)

/-- A validator that always returns the empty-string message `""`. -/
def emptyMsgVal : Validator Nat := fun _ _ => some ""

/-- Validator table registering `emptyMsgVal` for field `"x"`. -/
def emptyMsgVs : Vs Nat := fun k => if k = "x" then some emptyMsgVal else none

/-- One-field state used in the empty-message scenarios. -/
def emptyMsgSt : FormState Nat := initialState [("x", 0)]

/-- A required-style validator: value `0` is rejected with `"required"`. -/
def reqVal : Validator Nat := fun v _ => if v = some 0 then some "required" else none

/-- Validator table registering `reqVal` for field `"x"`. -/
def reqVs : Vs Nat := fun k => if k = "x" then some reqVal else none

/-- One-field state whose `"x"` value fails `reqVal`. -/
def reqSt : FormState Nat := initialState [("x", 0)]

/-- Operation sequence exercised by the key-invariant witness. -/
def c5Ops : List (FormOp Nat) :=
  [FormOp.setVal "a" 1, FormOp.validateF "zz", FormOp.blur "a", FormOp.submit,
   FormOp.doReset none]

/-! ### Lemmas about the JavaScript object model -/

lemma objGet_objSet_self {α : Type} (m : List (String × α)) (k : String) (v : α) :
    objGet (objSet m k v) k = some v := by
  induction m with
  | nil => simp [objSet, objGet]
  | cons p rest ih =>
      obtain ⟨k1, v1⟩ := p
      by_cases h : k1 = k
      · simp [objSet, objGet, h]
      · simp [objSet, objGet, h, ih]

lemma objGet_objSet_ne {α : Type} (m : List (String × α)) (k k1 : String) (v : α)
    (h : k1 ≠ k) : objGet (objSet m k v) k1 = objGet m k1 := by
  have hk : ¬ (k = k1) := fun hh => h hh.symm
  induction m with
  | nil => simp [objSet, objGet, hk]
  | cons p rest ih =>
      obtain ⟨k2, v2⟩ := p
      by_cases h2 : k2 = k
      · subst h2
        simp [objSet, objGet, hk]
      · simp only [objSet, if_neg h2, objGet]
        by_cases h3 : k2 = k1
        · simp [h3]
        · simp [h3, ih]

lemma objGet_objDelete_self {α : Type} (m : List (String × α)) (k : String) :
    objGet (objDelete m k) k = none := by
  induction m with
  | nil => simp [objDelete, objGet]
  | cons p rest ih =>
      obtain ⟨k1, v1⟩ := p
      by_cases h : k1 = k
      · simp [objDelete, h, ih]
      · simp [objDelete, objGet, h, ih]

lemma objGet_objDelete_ne {α : Type} (m : List (String × α)) (k k1 : String)
    (h : k1 ≠ k) : objGet (objDelete m k) k1 = objGet m k1 := by
  have hk : ¬ (k = k1) := fun hh => h hh.symm
  induction m with
  | nil => simp [objDelete, objGet]
  | cons p rest ih =>
      obtain ⟨k2, v2⟩ := p
      by_cases h2 : k2 = k
      · subst h2
        simp [objDelete, objGet, hk, ih]
      · simp only [objDelete, if_neg h2, objGet]
        by_cases h3 : k2 = k1
        · simp [h3]
        · simp [h3, ih]

lemma mem_keys_objSet {α : Type} (m : List (String × α)) (k x : String) (v : α)
    (hx : x ∈ keys (objSet m k v)) : x = k ∨ x ∈ keys m := by
  induction m with
  | nil =>
      simp only [objSet, keys, List.map_cons, List.map_nil, List.mem_singleton] at hx
      exact Or.inl hx
  | cons p rest ih =>
      obtain ⟨k1, v1⟩ := p
      by_cases h : k1 = k
      · subst h
        have hrw : objSet ((k1, v1) :: rest) k1 v = (k1, v) :: rest := by
          simp [objSet]
        rw [hrw] at hx
        simp only [keys, List.map_cons, List.mem_cons] at hx ⊢
        tauto
      · simp only [objSet, if_neg h, keys, List.map_cons, List.mem_cons] at hx ⊢
        rcases hx with hx | hx
        · exact Or.inr (Or.inl hx)
        · rcases ih hx with hx2 | hx2
          · exact Or.inl hx2
          · exact Or.inr (Or.inr hx2)

lemma keys_objSet_of_mem {α : Type} (m : List (String × α)) (k : String) (v : α)
    (hk : k ∈ keys m) : keys (objSet m k v) = keys m := by
  induction m with
  | nil => simp [keys] at hk
  | cons p rest ih =>
      obtain ⟨k1, v1⟩ := p
      by_cases h : k1 = k
      · subst h
        simp [objSet, keys]
      · have hk2 : k ∈ keys rest := by
          simp only [keys, List.map_cons, List.mem_cons] at hk
          rcases hk with hk | hk
          · exact absurd hk.symm h
          · exact hk
        simp only [objSet, if_neg h, keys, List.map_cons]
        rw [show List.map Prod.fst (objSet rest k v) = keys (objSet rest k v) from rfl,
          ih hk2]
        rfl

lemma mem_keys_objDelete {α : Type} (m : List (String × α)) (k x : String)
    (hx : x ∈ keys (objDelete m k)) : x ∈ keys m := by
  induction m with
  | nil => simp [objDelete, keys] at hx
  | cons p rest ih =>
      obtain ⟨k1, v1⟩ := p
      by_cases h : k1 = k
      · simp only [objDelete, if_pos h] at hx
        simp only [keys, List.map_cons, List.mem_cons]
        exact Or.inr (ih hx)
      · simp only [objDelete, if_neg h, keys, List.map_cons, List.mem_cons] at hx ⊢
        rcases hx with hx | hx
        · exact Or.inl hx
        · exact Or.inr (ih hx)

lemma mem_keys_iff_objGet {α : Type} (m : List (String × α)) (k : String) :
    k ∈ keys m ↔ (objGet m k).isSome := by
  induction m with
  | nil => simp [keys, objGet]
  | cons p rest ih =>
      obtain ⟨k1, v1⟩ := p
      by_cases h : k1 = k
      · subst h
        simp [keys, objGet]
      · have hk : ¬ (k = k1) := fun hh => h hh.symm
        simp only [keys, List.map_cons, List.mem_cons, objGet, if_neg h, hk, false_or]
        exact ih

/-! ### Basic facts about the engine operations -/

lemma validateField_values {V : Type} (vs : Option (Vs V)) (s : FormState V) (name : String) :
    (validateField vs s name).2.values = s.values := by
  unfold validateField
  cases lookupVal vs name <;> simp

lemma validateField_touched {V : Type} (vs : Option (Vs V)) (s : FormState V) (name : String) :
    (validateField vs s name).2.touched = s.touched := by
  unfold validateField
  cases lookupVal vs name <;> simp

lemma validateAll_values {V : Type} (vs : Option (Vs V)) (s : FormState V) :
    (validateAll vs s).2.values = s.values := by
  unfold validateAll
  cases vs <;> simp

lemma validateAll_touched {V : Type} (vs : Option (Vs V)) (s : FormState V) :
    (validateAll vs s).2.touched = s.touched := by
  unfold validateAll
  cases vs <;> simp

lemma validateAllStep_fst {V : Type} (f : Vs V) (values : List (String × V))
    (acc : Bool × List (String × String)) (k : String) :
    (validateAllStep f values acc k).1 = (acc.1 && (fieldMsg f values k).isNone) := by
  unfold validateAllStep fieldMsg
  cases hf : f k with
  | none => simp
  | some validate =>
      cases hm : validate (objGet values k) values with
      | none => simp [jsTruthy, hm]
      | some msg =>
          by_cases he : msg = ""
          · simp [jsTruthy, hm, he]
          · simp [jsTruthy, hm, he]

lemma validateAllStep_get {V : Type} (f : Vs V) (values : List (String × V))
    (acc : Bool × List (String × String)) (k x : String) :
    objGet (validateAllStep f values acc k).2 x =
      if x = k ∧ (fieldMsg f values k).isSome then fieldMsg f values k
      else objGet acc.2 x := by
  unfold validateAllStep fieldMsg
  cases hf : f k with
  | none => simp
  | some validate =>
      cases hm : validate (objGet values k) values with
      | none => simp [jsTruthy, hm]
      | some msg =>
          by_cases he : msg = ""
          · simp [jsTruthy, hm, he]
          · by_cases hx : x = k
            · subst hx
              simp [jsTruthy, hm, he, objGet_objSet_self]
            · simp [jsTruthy, hm, he, hx, objGet_objSet_ne _ _ _ _ hx]

lemma foldl_validateAllStep_fst {V : Type} (f : Vs V) (values : List (String × V))
    (ks : List String) (acc : Bool × List (String × String)) :
    (ks.foldl (validateAllStep f values) acc).1 =
      (acc.1 && ks.all (fun k => (fieldMsg f values k).isNone)) := by
  induction ks generalizing acc with
  | nil => simp
  | cons a ks ih =>
      simp only [List.foldl_cons, List.all_cons]
      rw [ih, validateAllStep_fst, Bool.and_assoc]

lemma foldl_validateAllStep_get {V : Type} (f : Vs V) (values : List (String × V))
    (ks : List String) (acc : Bool × List (String × String)) (x : String) :
    objGet (ks.foldl (validateAllStep f values) acc).2 x =
      if x ∈ ks ∧ (fieldMsg f values x).isSome then fieldMsg f values x
      else objGet acc.2 x := by
  induction ks generalizing acc with
  | nil => simp
  | cons a ks ih =>
      simp only [List.foldl_cons]
      rw [ih, validateAllStep_get]
      by_cases hm : (fieldMsg f values x).isSome
      · by_cases hx : x ∈ ks
        · simp [hx, hm]
        · by_cases ha : x = a
          · subst ha
            simp [hx, hm]
          · simp [hx, hm, ha]
      · have hax : ¬ (x = a ∧ (fieldMsg f values a).isSome) ∨ True := Or.inr trivial
        by_cases ha : x = a
        · subst ha
          simp [hm]
        · simp [hm, ha]

lemma validateAll_errors_get {V : Type} (f : Vs V) (s : FormState V) (x : String) :
    objGet (validateAll (some f) s).2.errors x =
      if x ∈ keys s.values then fieldMsg f s.values x else none := by
  show objGet ((keys s.values).foldl (validateAllStep f s.values) (true, [])).2 x = _
  rw [foldl_validateAllStep_get]
  by_cases hx : x ∈ keys s.values
  · by_cases hm : (fieldMsg f s.values x).isSome
    · simp [hx, hm]
    · rw [Option.not_isSome_iff_eq_none] at hm
      simp [hx, hm, objGet]
  · simp [hx, objGet]

lemma validateAll_fst {V : Type} (f : Vs V) (s : FormState V) :
    (validateAll (some f) s).1 =
      (keys s.values).all (fun k => (fieldMsg f s.values k).isNone) := by
  show ((keys s.values).foldl (validateAllStep f s.values) (true, [])).1 = _
  rw [foldl_validateAllStep_fst]
  simp

lemma handleSubmitRun_fst {V : Type} (vs : Option (Vs V)) (s : FormState V) :
    (handleSubmitRun vs s).1 = (validateAll vs s).2 := rfl

lemma mem_keys_validateField_errors {V : Type} (vs : Option (Vs V)) (s : FormState V)
    (name x : String) (hx : x ∈ keys (validateField vs s name).2.errors) :
    x = name ∨ x ∈ keys s.errors := by
  unfold validateField at hx
  cases hl : lookupVal vs name with
  | none =>
      simp only [hl] at hx
      by_cases h : objHas s.errors name
      · simp only [h, if_true] at hx
        exact Or.inr (mem_keys_objDelete _ _ _ hx)
      · simp only [h, Bool.false_eq_true, if_false] at hx
        exact Or.inr hx
  | some validate =>
      simp only [hl] at hx
      by_cases h : jsTruthy (validate (objGet s.values name) s.values)
      · simp only [h, if_true] at hx
        exact mem_keys_objSet _ _ _ _ hx
      · simp only [h, Bool.false_eq_true, if_false] at hx
        exact Or.inr (mem_keys_objDelete _ _ _ hx)

lemma mem_keys_validateField_errors_noval {V : Type} (vs : Option (Vs V)) (s : FormState V)
    (name x : String) (hnone : lookupVal vs name = none)
    (hx : x ∈ keys (validateField vs s name).2.errors) : x ∈ keys s.errors := by
  unfold validateField at hx
  simp only [hnone] at hx
  by_cases h : objHas s.errors name
  · simp only [h, if_true] at hx
    exact mem_keys_objDelete _ _ _ hx
  · simpa only [h, Bool.false_eq_true, if_false] using hx

lemma mem_keys_validateAll_errors {V : Type} (vs : Option (Vs V)) (s : FormState V)
    (x : String) (hx : x ∈ keys (validateAll vs s).2.errors) : x ∈ keys s.values := by
  cases vs with
  | none => simp [validateAll, keys] at hx
  | some f =>
      have h2 : (objGet (validateAll (some f) s).2.errors x).isSome :=
        (mem_keys_iff_objGet _ _).mp hx
      rw [validateAll_errors_get] at h2
      by_cases hv : x ∈ keys s.values
      · exact hv
      · simp [hv] at h2

lemma goodState_applyOp {V : Type} (dv : List (String × V)) (vs : Option (Vs V))
    (fields : List String) (s : FormState V) (op : FormOp V)
    (hdom : ∀ k, k ∉ fields → lookupVal vs k = none)
    (hdv : keys dv = fields)
    (hs : goodState fields s) (hop : opAllowed fields op = true) :
    goodState fields (applyOp dv vs s op) := by
  obtain ⟨hv, he, ht⟩ := hs
  cases op with
  | setVal name v =>
      have hname : name ∈ fields := by simpa [opAllowed] using hop
      refine ⟨?_, he, ht⟩
      simp only [applyOp, setValue]
      rw [keys_objSet_of_mem _ _ _ (by rw [hv]; exact hname), hv]
  | validateF name =>
      refine ⟨?_, ?_, ?_⟩
      · simp only [applyOp]
        rw [validateField_values, hv]
      · intro x hx
        by_cases hname : name ∈ fields
        · rcases mem_keys_validateField_errors vs s name x (by simpa [applyOp] using hx)
            with h | h
          · exact h ▸ hname
          · exact he x h
        · exact he x (mem_keys_validateField_errors_noval vs s name x (hdom name hname)
            (by simpa [applyOp] using hx))
      · intro x hx
        simp only [applyOp] at hx
        rw [validateField_touched] at hx
        exact ht x hx
  | validateA =>
      refine ⟨?_, ?_, ?_⟩
      · simp only [applyOp]
        rw [validateAll_values, hv]
      · intro x hx
        simp only [applyOp] at hx
        rw [← hv]
        exact mem_keys_validateAll_errors vs s x hx
      · intro x hx
        simp only [applyOp] at hx
        rw [validateAll_touched] at hx
        exact ht x hx
  | blur name =>
      have hname : name ∈ fields := by simpa [opAllowed] using hop
      refine ⟨?_, ?_, ?_⟩
      · simp only [applyOp, registerOnBlur]
        rw [validateField_values]
        exact hv
      · intro x hx
        simp only [applyOp, registerOnBlur] at hx
        rcases mem_keys_validateField_errors vs _ name x hx with h | h
        · exact h ▸ hname
        · exact he x h
      · intro x hx
        simp only [applyOp, registerOnBlur] at hx
        rw [validateField_touched] at hx
        rcases mem_keys_objSet _ _ _ _ hx with h | h
        · exact h ▸ hname
        · exact ht x h
  | submit =>
      refine ⟨?_, ?_, ?_⟩
      · simp only [applyOp, handleSubmitRun_fst]
        rw [validateAll_values, hv]
      · intro x hx
        simp only [applyOp, handleSubmitRun_fst] at hx
        rw [← hv]
        exact mem_keys_validateAll_errors vs s x hx
      · intro x hx
        simp only [applyOp, handleSubmitRun_fst] at hx
        rw [validateAll_touched] at hx
        exact ht x hx
  | doReset next =>
      cases next with
      | none =>
          refine ⟨?_, ?_, ?_⟩
          · simpa [applyOp, reset] using hdv
          · simp [applyOp, reset, keys]
          · simp [applyOp, reset, keys]
      | some w =>
          have hw : keys w = fields := by simpa [opAllowed] using hop
          refine ⟨?_, ?_, ?_⟩
          · simpa [applyOp, reset] using hw
          · simp [applyOp, reset, keys]
          · simp [applyOp, reset, keys]

lemma goodState_runOps {V : Type} (dv : List (String × V)) (vs : Option (Vs V))
    (fields : List String) (s : FormState V) (ops : List (FormOp V))
    (hdom : ∀ k, k ∉ fields → lookupVal vs k = none)
    (hdv : keys dv = fields)
    (hs : goodState fields s)
    (hops : ∀ op ∈ ops, opAllowed fields op = true) :
    goodState fields (runOps dv vs s ops) := by
  induction ops generalizing s with
  | nil => exact hs
  | cons op ops ih =>
      exact ih (applyOp dv vs s op)
        (goodState_applyOp dv vs fields s op hdom hdv hs (hops op (by simp)))
        (fun o ho => hops o (by simp [ho]))

/-! ### Claim theorems -/

/-- C1: the callback returned by `handleSubmit(onValid)` runs `validateAll`
once; when it reports success the callback invokes `onValid` exactly once
with the current `values` snapshot, otherwise it makes no call, and the
resulting `errors` is exactly the mapping `validateAll` computed. -/
theorem handleSubmit_gating {V : Type} (vs : Option (Vs V)) (s : FormState V) :
    (handleSubmitRun vs s).1.errors = (validateAll vs s).2.errors
    ∧ ((validateAll vs s).1 = true → (handleSubmitRun vs s).2 = [s.values])
    ∧ ((validateAll vs s).1 = false → (handleSubmitRun vs s).2 = []) := by
  refine ⟨rfl, ?_, ?_⟩ <;> intro h <;> simp [handleSubmitRun, h]

theorem handleSubmit_gating_w :
    (handleSubmitRun (V := Nat) none (initialState [("a", 0)])).2 = [[("a", 0)]] :=
  (handleSubmit_gating none (initialState [("a", 0)])).2.1 rfl

/-- C2 (amended): after `validateAll()` the errors mapping holds exactly the
current fields whose validator returned a truthy (non-empty) message —
stale errors and clean or validator-less fields are absent — and the result
is `true` iff no evaluated validator returned a non-empty message. -/
theorem validateAll_exact {V : Type} (f : Vs V) (s : FormState V) :
    (∀ x, objGet (validateAll (some f) s).2.errors x =
        if x ∈ keys s.values then fieldMsg f s.values x else none)
    ∧ ((validateAll (some f) s).1 = true ↔
        ∀ x ∈ keys s.values, fieldMsg f s.values x = none) := by
  refine ⟨fun x => validateAll_errors_get f s x, ?_⟩
  rw [validateAll_fst]
  simp [List.all_eq_true, Option.isNone_iff_eq_none]

theorem validateAll_exact_w :
    objGet (validateAll (some reqVs) reqSt).2.errors "x" =
      (if "x" ∈ keys reqSt.values then fieldMsg reqVs reqSt.values "x" else none) :=
  (validateAll_exact reqVs reqSt).1 "x"

/-- C2 counterexample: the registered validator for `"x"` returns the
non-null message `""`, yet `validateAll` reports overall success and stores
no entry for `"x"`. -/
theorem validateAll_empty_msg_cex :
    (validateAll (some emptyMsgVs) emptyMsgSt).1 = true
    ∧ objGet (validateAll (some emptyMsgVs) emptyMsgSt).2.errors "x" = none
    ∧ emptyMsgVal (objGet emptyMsgSt.values "x") emptyMsgSt.values = some "" := by
  refine ⟨?_, ?_, rfl⟩ <;> rfl

/-- C3 (amended): with a registered validator `v`, `validateField(name)`
returns `true` iff `v(values[name], values)` is `null`; a non-empty message
is stored at `errors[name]`, the empty message removes the entry instead;
`values` and `touched` are unchanged. -/
theorem validateField_with_validator {V : Type} (vs : Option (Vs V)) (s : FormState V)
    (name : String) (v : Validator V) (hl : lookupVal vs name = some v) :
    ((validateField vs s name).1 = true ↔ v (objGet s.values name) s.values = none)
    ∧ (∀ msg, v (objGet s.values name) s.values = some msg → msg ≠ "" →
        objGet (validateField vs s name).2.errors name = some msg)
    ∧ (v (objGet s.values name) s.values = some "" →
        objGet (validateField vs s name).2.errors name = none)
    ∧ (validateField vs s name).2.values = s.values
    ∧ (validateField vs s name).2.touched = s.touched := by
  unfold validateField
  simp only [hl]
  cases hm : v (objGet s.values name) s.values with
  | none =>
      simp [jsTruthy, jsEqNull, hm, objGet_objDelete_self]
  | some msg =>
      by_cases he : msg = ""
      · subst he
        simp [jsTruthy, jsEqNull, hm, objGet_objDelete_self]
      · simp [jsTruthy, jsEqNull, hm, he, objGet_objSet_self]

theorem validateField_with_validator_w :
    objGet (validateField (some reqVs) reqSt "x").2.errors "x" = some "required" :=
  (validateField_with_validator (some reqVs) reqSt "x" reqVal rfl).2.1 "required" rfl
    (by decide)

/-- C3 counterexample: the validator at `"x"` returns the message `""`, the
call returns `false`, but no entry for `"x"` is stored, contradicting
"errors[name] equals the message v returned". -/
theorem validateField_empty_msg_cex :
    (validateField (some emptyMsgVs) emptyMsgSt "x").1 = false
    ∧ objGet (validateField (some emptyMsgVs) emptyMsgSt "x").2.errors "x" = none
    ∧ emptyMsgVal (objGet emptyMsgSt.values "x") emptyMsgSt.values = some "" := by
  refine ⟨?_, ?_, rfl⟩ <;> rfl

/-- C4: neither the object literal returned by `useForm` nor the
`UseFormReturn` type exposes an `isSubmitting` member, although the spec,
the README and the repository's own tests require an accessor observing
`false`. -/
theorem isSubmitting_not_exposed :
    "isSubmitting" ∉ useFormReturnKeys ∧ "isSubmitting" ∉ useFormReturnTypeKeys := by
  decide

/-- C5 (amended): over any operation sequence in which `setValue` and blur
use construction-time field names, `reset` replacements preserve the key
set, and validators are registered only for construction-time names
(`validateField`, `validateAll` and submit being unrestricted), the key set
of `values` stays equal to the construction-time field names and the key
sets of `errors` and `touched` stay inside it. A `setValue` call with an
unknown name, by contrast, adds that key to `values`. -/
theorem formState_keys_invariant {V : Type} (dv : List (String × V)) (vs : Option (Vs V))
    (ops : List (FormOp V))
    (hdom : ∀ k, k ∉ keys dv → lookupVal vs k = none)
    (hops : ∀ op ∈ ops, opAllowed (keys dv) op = true) :
    goodState (keys dv) (runOps dv vs (initialState dv) ops) := by
  refine goodState_runOps dv vs (keys dv) _ ops hdom rfl ?_ hops
  exact ⟨rfl, by simp [initialState, keys], by simp [initialState, keys]⟩

theorem formState_keys_invariant_w :
    goodState (keys [("a", (0 : Nat))])
      (runOps [("a", (0 : Nat))] none (initialState [("a", (0 : Nat))]) c5Ops) :=
  formState_keys_invariant [("a", (0 : Nat))] none c5Ops (fun _ _ => rfl) (by decide)

/-- C5 counterexample: `setValue` with the unknown name `"b"` adds the key
`"b"` to `values`, so the key set does not stay equal to the construction
field set. -/
theorem setValue_unknown_key_cex :
    keys (setValue (initialState [("a", (0 : Nat))]) "b" 1).values
      ≠ keys (initialState [("a", (0 : Nat))]).values := by
  decide

/-- C6: the blur callback from `register(name)` first marks
`touched[name] = true` and then runs `validateField(name)`; `touched[name]`
ends up `true` whatever the validation outcome (also with no validator),
while other touched entries and `values` are unchanged. -/
theorem register_blur_spec {V : Type} (vs : Option (Vs V)) (s : FormState V) (name : String) :
    registerOnBlur vs s name =
      (validateField vs { s with touched := objSet s.touched name true } name).2
    ∧ objGet (registerOnBlur vs s name).touched name = some true
    ∧ (∀ k, k ≠ name → objGet (registerOnBlur vs s name).touched k = objGet s.touched k)
    ∧ (registerOnBlur vs s name).values = s.values := by
  refine ⟨rfl, ?_, ?_, ?_⟩
  · show objGet (validateField vs { s with touched := objSet s.touched name true } name).2.touched
        name = some true
    rw [validateField_touched]
    exact objGet_objSet_self _ _ _
  · intro k hk
    show objGet (validateField vs { s with touched := objSet s.touched name true } name).2.touched
        k = objGet s.touched k
    rw [validateField_touched]
    exact objGet_objSet_ne _ _ _ _ hk
  · show (validateField vs { s with touched := objSet s.touched name true } name).2.values
        = s.values
    rw [validateField_values]

theorem register_blur_spec_w :
    objGet (registerOnBlur (V := Nat) none (initialState [("a", 0), ("b", 1)]) "a").touched "b"
      = objGet (initialState [("a", (0 : Nat)), ("b", 1)]).touched "b" :=
  (register_blur_spec none (initialState [("a", 0), ("b", 1)]) "a").2.2.1 "b" (by decide)

/-- C7: `setValue(a, x)` replaces `values[a]` with `x` and changes nothing
else: any other field's value, all of `errors` and all of `touched` are
untouched. -/
theorem setValue_frame {V : Type} (s : FormState V) (a b : String) (x : V) (hab : a ≠ b) :
    objGet (setValue s a x).values a = some x
    ∧ objGet (setValue s a x).values b = objGet s.values b
    ∧ (setValue s a x).errors = s.errors
    ∧ (setValue s a x).touched = s.touched := by
  refine ⟨objGet_objSet_self _ _ _, ?_, rfl, rfl⟩
  exact objGet_objSet_ne _ _ _ _ (fun h => hab h.symm)

theorem setValue_frame_w :
    objGet (setValue (initialState [("a", (0 : Nat)), ("b", 1)]) "a" 5).values "b"
      = objGet (initialState [("a", (0 : Nat)), ("b", 1)]).values "b" :=
  (setValue_frame (initialState [("a", (0 : Nat)), ("b", 1)]) "a" "b" 5 (by decide)).2.1

/-- C8: `reset()` restores exactly the construction-time values, and
`reset(W)` with a replacement over the same field set installs `W`; both
clear `errors` and `touched` to empty. -/
theorem reset_spec {V : Type} (dv : List (String × V)) (s : FormState V) :
    reset dv s none = initialState dv
    ∧ (∀ w, keys w = keys dv →
        reset dv s (some w) = { values := w, errors := [], touched := [] }) :=
  ⟨rfl, fun _ _ => rfl⟩

theorem reset_spec_w :
    reset [("a", (0 : Nat))] (setValue (initialState [("a", 0)]) "a" 3) (some [("a", 9)])
      = { values := [("a", 9)], errors := [], touched := [] } :=
  (reset_spec [("a", (0 : Nat))] (setValue (initialState [("a", 0)]) "a" 3)).2 [("a", 9)] rfl

/-- C9: with no validator registered for `name`, `validateField(name)`
returns `true`, ends with no `errors` entry for `name` (a no-op when none
existed), leaves every other entry alone, and does not change `values` or
`touched` — whatever the field's current value. -/
theorem validateField_no_validator {V : Type} (vs : Option (Vs V)) (s : FormState V)
    (name : String) (hl : lookupVal vs name = none) :
    (validateField vs s name).1 = true
    ∧ objGet (validateField vs s name).2.errors name = none
    ∧ (∀ k, k ≠ name → objGet (validateField vs s name).2.errors k = objGet s.errors k)
    ∧ (validateField vs s name).2.values = s.values
    ∧ (validateField vs s name).2.touched = s.touched := by
  have hval : validateField vs s name =
      (true, { s with errors := if objHas s.errors name then objDelete s.errors name else s.errors }) := by
    unfold validateField
    rw [hl]
  rw [hval]
  refine ⟨rfl, ?_, ?_, rfl, rfl⟩
  · by_cases h : objHas s.errors name
    · simp [h, objGet_objDelete_self]
    · simp only [h, Bool.false_eq_true, if_false]
      exact Option.not_isSome_iff_eq_none.mp (by simpa [objHas] using h)
  · intro k hk
    by_cases h : objHas s.errors name
    · simp [h, objGet_objDelete_ne _ _ _ hk]
    · simp [h]

theorem validateField_no_validator_w :
    (validateField (V := Nat) none (initialState [("a", 0)]) "a").1 = true :=
  (validateField_no_validator none (initialState [("a", 0)]) "a" rfl).1

/-- C10: a validator returning the empty string `""` makes `validateField`
report `false` while leaving no `errors` entry for the field, yet
`validateAll` treats the same field as valid: its loop step keeps the
success flag and the accumulated errors untouched. -/
theorem empty_message_divergence {V : Type} (f : Vs V) (s : FormState V) (name : String)
    (v : Validator V) (acc : Bool × List (String × String))
    (hl : f name = some v)
    (hm : v (objGet s.values name) s.values = some "") :
    (validateField (some f) s name).1 = false
    ∧ objGet (validateField (some f) s name).2.errors name = none
    ∧ validateAllStep f s.values acc name = acc := by
  unfold validateField validateAllStep lookupVal
  simp only [hl]
  simp [jsTruthy, jsEqNull, hm, objGet_objDelete_self]

theorem empty_message_divergence_w :
    (validateField (some emptyMsgVs) emptyMsgSt "x").1 = false
    ∧ validateAllStep emptyMsgVs emptyMsgSt.values (true, []) "x" = (true, []) := by
  have h := empty_message_divergence emptyMsgVs emptyMsgSt "x" emptyMsgVal (true, []) rfl rfl
  exact ⟨h.1, h.2.2⟩
